import Mathlib

/-!
Verification of the crossword CSP solver in
`src/Optimization/crossword/generate.py` (class `CrosswordCreator`).

Shallow embedding conventions:
* Python `set` objects (word domains, variable sets) are modelled as `List`s
  iterated in a fixed, deterministic order (the insertion order of the
  corresponding Lean lists); Python's set iteration order is unspecified,
  so concrete evaluations below fix one canonical order.
* The mutable `self.domains` dictionary is modelled as a total function
  `Var → List Word` threaded through the functions that mutate it.
* Fallible Python code is modelled with `Except Err`: `generate.py` line 272
  reads the unbound name `assigment` (a misspelling of `assignment`), which
  raises `NameError` as the first statement of the candidate loop of
  `backtrack`; everything after it in the loop body (lines 273-282) is dead
  code and therefore contributes nothing to the embedding's result.
* The puzzle model (`crossword.py`, the external collaborator) is not part of
  the repository sources; its interface is modelled from the spec where noted.
-/

namespace CrosswordCSP

/-- Modelled from the spec: a crossword slot of the Puzzle Model collaborator
(`crossword.py`, not under `src/`): start position `(i, j)`, direction
(ACROSS/DOWN as a `Bool`), and `length`, with structural equality. -/
structure Var where
  i : Nat
  j : Nat
  down : Bool
  length : Nat
deriving DecidableEq, Repr

/-- Words are strings, modelled as lists of characters. -/
abbrev Word := List Char

/-- Modelled from the spec: the immutable Puzzle Model collaborator: the set of
variables, the word list, and the overlap map giving for each crossing ordered
pair the cell offsets that must agree (`none` for pairs that do not cross). -/
structure Crossword where
  vars : List Var
  words : List Word
  overlaps : Var → Var → Option (Nat × Nat)

/-- The Domain Store (`self.domains`): per-variable candidate word lists. -/
abbrev Domains := Var → List Word

/-- A (partial) assignment: a Python dict from variables to words, modelled as
an association list with distinct keys, in insertion order. -/
abbrev Assignment := List (Var × Word)

/-- Exceptions the embedded code can raise. -/
inductive Err where
  | nameError
  | keyError
deriving DecidableEq, Repr

/-- Python string indexing `w[i]`.  Every index reached in this development is
in range; the default is irrelevant (Python would raise `IndexError`). -/
def charAt (w : Word) (i : Nat) : Char := w.getD i '?'

/-- Dictionary lookup `assignment[var]` / membership `var in assignment`. -/
def alookup : Assignment → Var → Option Word
  | [], _ => none
  | (k, w) :: rest, v => if k = v then some w else alookup rest v

/-- Modelled from the spec: `crossword.neighbors(var)` of the Puzzle Model
collaborator: "for a variable x, the set of all other variables y with a
defined overlap with x". -/
def neighbors (cw : Crossword) (var : Var) : List Var :=
  cw.vars.filter (fun y => decide (y ≠ var) && (cw.overlaps var y).isSome)

/-- `CrosswordCreator.neighborhood` (lines 114-121): the list of pairs
`(var, neighbor)` — `var` first — built by appending one pair per neighbor. -/
def neighborhood (cw : Crossword) (var : Var) : List (Var × Var) :=
  (neighbors cw var).foldl (fun queue neighbor => queue ++ [(var, neighbor)]) []

/-- `__init__` (lines 13-16): every variable starts with a copy of the full
word list. -/
def initialDomains (cw : Crossword) : Domains := fun _ => cw.words

/-- Removing every element of `toDelete` from the set `l`
(the `self.domains[key].remove(value)` loops; sets have no duplicates, so
removing each collected value is filtering them all out). -/
def eraseAll (l toDelete : List Word) : List Word :=
  l.filter (fun w => decide (w ∉ toDelete))

/-- `enforce_node_consistency` (lines 96-110): for each variable (dict key),
collect the words of the wrong length into `toRemove`, then remove them.
The dict update is per-key (keys are distinct), hence pointwise. -/
def enforceNodeConsistency (cw : Crossword) (d : Domains) : Domains := fun key =>
  if key ∈ cw.vars then
    let toRemove := (d key).filter (fun value => decide (value.length ≠ key.length))
    eraseAll (d key) toRemove
  else d key

/-- The inner loop of `revise` (lines 139-143): `value` has support in `dy`
iff some distinct `corresp` agrees at the overlap offsets. -/
def hasSupport (dy : List Word) (w z : Nat) (value : Word) : Bool :=
  dy.any (fun corresp => decide (value ≠ corresp) && decide (charAt value w = charAt corresp z))

/-- Pointwise update of the Domain Store at one key. -/
def updateD (d : Domains) (x : Var) (l : List Word) : Domains :=
  fun v => if v = x then l else d v

/-- `revise` (lines 123-153): collect into `toDelete` every word of
`domains[x]` without support in `domains[y]`, and remove them iff any were
collected.  The overlap unpacking sits inside the value loop; it is only ever
reached for crossing pairs in this program (for a non-crossing pair with a
non-empty domain Python would raise `TypeError`; we return "no revision"). -/
def revise (cw : Crossword) (x y : Var) (d : Domains) : Bool × Domains :=
  match cw.overlaps x y with
  | none => (false, d)
  | some (w, z) =>
    let toDelete := (d x).filter (fun value => ! hasSupport (d y) w z value)
    if toDelete = [] then (false, d)
    else (true, updateD d x (eraseAll (d x) toDelete))

/-- Total size of the Domain Store over an index list (termination measure). -/
def sizeOn (L : List Var) (d : Domains) : Nat :=
  (L.dedup.map (fun v => (d v).length)).sum

/-- The worklist `ac3` starts from (lines 164-170): all arcs of every
variable's neighborhood when `arcs is None`, else the given list. -/
def initQueue (cw : Crossword) (arcs : Option (List (Var × Var))) : List (Var × Var) :=
  match arcs with
  | none => cw.vars.foldl (fun queue var => queue ++ neighborhood cw var) []
  | some a => a

/-- Fuel bound under which the `ac3` worklist loop provably finishes
(each iteration pops one arc; a revision strictly shrinks the store and
re-enqueues at most `|variables|` arcs). -/
def ac3FuelBound (cw : Crossword) (queue : List (Var × Var)) (d : Domains) : Nat :=
  queue.length + sizeOn (cw.vars ++ queue.map Prod.fst) d * (cw.vars.length + 1) + 1

/-- The worklist loop of `ac3` (lines 172-179), with explicit fuel: pop the
head arc FIFO, revise it; on a revision return `false` if `domains[x]`
emptied, otherwise re-enqueue `(x, z)` for every neighbor `z` of `x` other
than `y`.  `none` means the fuel ran out, which `ac3Aux_isSome` below proves
never happens for the fuel `ac3` supplies. -/
def ac3Aux (cw : Crossword) : Nat → List (Var × Var) → Domains → Option (Bool × Domains)
  | 0, _, _ => none
  | _ + 1, [], d => some (true, d)
  | fuel + 1, (x, y) :: rest, d =>
    match revise cw x y d with
    | (false, d') => ac3Aux cw fuel rest d'
    | (true, d') =>
      if d' x = [] then some (false, d')
      else
        ac3Aux cw fuel
          (rest ++ ((neighbors cw x).filter (fun z => decide (z ≠ y))).map (fun z => (x, z)))
          d'

/-- `ac3` (lines 155-179).  The defaulting branch is unreachable: the supplied
fuel always suffices (`ac3Aux_isSome`). -/
def ac3 (cw : Crossword) (arcs : Option (List (Var × Var))) (d : Domains) : Bool × Domains :=
  let queue := initQueue cw arcs
  match ac3Aux cw (ac3FuelBound cw queue d) queue d with
  | some r => r
  | none => (false, d)

/-- `assignment_complete` (lines 181-189). -/
def assignmentComplete (cw : Crossword) (a : Assignment) : Bool :=
  cw.vars.all (fun var => (alookup a var).isSome)

/-- `consistent` (lines 191-204): for every assigned variable and every
assigned neighbor, reject equal words first (line 199), then mismatching
letters at the overlap offsets (lines 201-202).  Iterating the dict's keys is
iterating the entries (keys are distinct); the `none` overlap branch is
unreachable for neighbors (Python would raise unpacking `None`). -/
def consistent (cw : Crossword) (a : Assignment) : Bool :=
  a.all (fun entry =>
    (neighbors cw entry.1).all (fun neighbor =>
      match alookup a neighbor with
      | none => true
      | some wn =>
        if entry.2 = wn then false
        else
          match cw.overlaps entry.1 neighbor with
          | none => true
          | some (i, j) => decide (charAt entry.2 i = charAt wn j)))

/-- The count accumulated for one candidate `word` by `order_domain_values`
(lines 216-224): over each unassigned neighbor, the number of its domain
values whose overlap letter differs from `word`'s. -/
def lcvCount (cw : Crossword) (d : Domains) (a : Assignment) (var : Var) (word : Word) : Nat :=
  ((neighbors cw var).filter (fun n => (alookup a n).isNone)).foldl
    (fun acc neighbor =>
      match cw.overlaps var neighbor with
      | none => acc
      | some (x, y) =>
        acc + ((d neighbor).filter (fun value => decide (charAt value y ≠ charAt word x))).length)
    0

/-- `order_domain_values` (lines 206-229): pair each domain word with its
count, stable-sort ascending by count, return the words. -/
def orderDomainValues (cw : Crossword) (d : Domains) (var : Var) (a : Assignment) : List Word :=
  (((d var).map (fun word => (word, lcvCount cw d a var word))).insertionSort
    (fun p q => p.2 ≤ q.2)).map Prod.fst

/-- One step of the `select_unassigned_variable` loop (lines 242-252), folding
the `better = [variable, domain_len, neighbor_len]` triple. -/
def selectFold (cw : Crossword) (d : Domains) (a : Assignment)
    (best : Option Var × Nat × Int) (var : Var) : Option Var × Nat × Int :=
  let domainLen := (d var).length
  let neighAvailable : Int :=
    ((neighbors cw var).filter (fun n => (alookup a n).isNone)).length
  if best.1.isNone ∨ domainLen < best.2.1 then (some var, domainLen, neighAvailable)
  else if domainLen = best.2.1 ∧ neighAvailable > best.2.2 then
    (some var, domainLen, neighAvailable)
  else best

/-- `select_unassigned_variable` (lines 231-254): fold over the unassigned
variables starting from `better = [None, 500, -1]`. -/
def selectUnassignedVariable (cw : Crossword) (d : Domains) (a : Assignment) : Option Var :=
  ((cw.vars.filter (fun v => (alookup a v).isNone)).foldl
    (selectFold cw d a) (none, 500, -1)).1

/-- `backtrack` (lines 256-283).  If the assignment is complete it is
returned; otherwise a variable is selected and its candidates ordered.  The
first statement of the candidate loop body (line 272) reads the unbound name
`assigment`, so a non-empty candidate list raises `NameError` at once; the
rest of the loop body (the tentative extension, the `consistent` check, the
`track`/restore dance and the recursive call, lines 273-282) is unreachable.
An empty candidate list skips the loop and returns `None` (line 283).  The
selected variable cannot be `None` when the assignment is incomplete; Python
would raise a `KeyError` indexing `self.domains[None]` in that impossible
branch. -/
def backtrack (cw : Crossword) (d : Domains) (a : Assignment) :
    Except Err (Option Assignment) :=
  if assignmentComplete cw a then .ok (some a)
  else
    match selectUnassignedVariable cw d a with
    | none => .error .keyError
    | some var =>
      match orderDomainValues cw d var a with
      | [] => .ok none
      | _ :: _ => .error .nameError

/-- `solve` (lines 88-94): node consistency, then one full `ac3` pass whose
Boolean result is discarded (line 93 is a bare statement), then
`backtrack({})` unconditionally. -/
def solve (cw : Crossword) : Except Err (Option Assignment) :=
  let d1 := enforceNodeConsistency cw (initialDomains cw)
  let d2 := (ac3 cw none d1).2
  backtrack cw d2 []

/-- The Domain Store right after `solve`'s two filtering passes (the store
`backtrack` starts from). -/
def postFilterDomains (cw : Crossword) : Domains :=
  (ac3 cw none (enforceNodeConsistency cw (initialDomains cw))).2

/-- Ghost observation of `solve`'s control flow (lines 88-94): the body is
straight-line — `enforce_node_consistency()`, then `ac3()` with its result
discarded, then `return self.backtrack(dict())` — so control reaches the
`backtrack` call site on every run, regardless of `ac3`'s Boolean. -/
def solveReachesBacktrack (cw : Crossword) : Bool :=
  let d1 := enforceNodeConsistency cw (initialDomains cw)
  let _discarded := ac3 cw none d1
  true

/-! ### Concrete puzzles used in the theorems below -/

/-- A crossword with no slots at all. -/
def cwEmpty : Crossword := ⟨[], [], fun _ _ => none⟩

/-- One slot of length 2 and one word that fits it. -/
def cwSingle : Crossword := ⟨[⟨0, 0, false, 2⟩], [['a', 'b']], fun _ _ => none⟩

/-- Two non-crossing slots: a length-3 slot whose domain empties at the
node-consistency pass and a length-2 slot that keeps the one word. -/
def cwSplit : Crossword :=
  ⟨[⟨0, 0, false, 3⟩, ⟨5, 5, true, 2⟩], [['a', 'b']], fun _ _ => none⟩

/-- First slot of the crossing pair `cwCross`. -/
def vP : Var := ⟨0, 0, false, 2⟩

/-- Second slot of the crossing pair `cwCross`. -/
def vQ : Var := ⟨0, 1, true, 2⟩

/-- Two slots crossing at both words' first letters, with a word list in which
no two distinct words agree there: the initial `ac3` pass fails. -/
def cwCross : Crossword :=
  ⟨[vP, vQ], [['a', 'b'], ['b', 'a']],
    fun x y =>
      if x = vP ∧ y = vQ then some (0, 0)
      else if x = vQ ∧ y = vP then some (0, 0)
      else none⟩

/-- Slot `X` of `cwChain`. -/
def vX : Var := ⟨0, 0, false, 2⟩

/-- Slot `Y` of `cwChain`. -/
def vY : Var := ⟨1, 0, true, 2⟩

/-- Slot `Z` of `cwChain`. -/
def vZ : Var := ⟨2, 0, false, 2⟩

/-- A chain `X – Y – Z`: `X` and `Y` cross at both first letters, `Y` and `Z`
cross at `Y`'s second and `Z`'s first letter.  `X` and `Z` do not cross. -/
def cwChain : Crossword :=
  ⟨[vX, vY, vZ], [],
    fun a b =>
      if a = vX ∧ b = vY then some (0, 0)
      else if a = vY ∧ b = vX then some (0, 0)
      else if a = vY ∧ b = vZ then some (1, 0)
      else if a = vZ ∧ b = vY then some (0, 1)
      else none⟩

/-- A Domain Store for `cwChain` on which the buggy re-enqueueing direction of
`ac3` shows: after the full default pass `ac3` reports success although the
word `ab` kept for `X` has lost all support in `Y`'s domain. -/
def dChain : Domains := fun v =>
  if v = vX then [['a', 'b'], ['b', 'b']]
  else if v = vY then [['a', 'x'], ['b', 'z']]
  else if v = vZ then [['z', 'z']] else []

/-! ### Helper lemmas -/

/-- Removing a non-empty sub-filter of a list strictly shortens it. -/
theorem eraseAll_filter_length_lt (l : List Word) (p : Word → Bool)
    (h : l.filter p ≠ []) : (eraseAll l (l.filter p)).length < l.length := by
  obtain ⟨t, ht⟩ := List.exists_mem_of_ne_nil _ h
  have htl := (List.mem_filter.mp ht).1
  unfold eraseAll
  refine List.length_filter_lt_length_iff_exists.mpr ⟨t, htl, ?_⟩
  simp [ht]

/-- A non-revision leaves the Domain Store untouched. -/
theorem revise_false_eq {cw : Crossword} {x y : Var} {d d' : Domains}
    (h : revise cw x y d = (false, d')) : d' = d := by
  simp only [revise] at h
  split at h
  · injection h with h1 h2
    exact h2.symm
  · split at h
    · injection h with h1 h2
      exact h2.symm
    · injection h with h1 h2
      cases h1

/-- A revision strictly shrinks `domains[x]` and changes no other entry. -/
theorem revise_true_spec {cw : Crossword} {x y : Var} {d d' : Domains}
    (h : revise cw x y d = (true, d')) :
    (d' x).length < (d x).length ∧ ∀ v, v ≠ x → d' v = d v := by
  simp only [revise] at h
  split at h
  · injection h with h1 h2
    cases h1
  · split at h
    · injection h with h1 h2
      cases h1
    · injection h with h1 h2
      subst h2
      refine ⟨?_, ?_⟩
      · show (updateD d x _ x).length < _
        unfold updateD
        rw [if_pos rfl]
        exact eraseAll_filter_length_lt _ _ (by assumption)
      · intro v hv
        unfold updateD
        rw [if_neg hv]

/-- Shrinking one entry of the store shrinks the summed size over any nodup
index list containing it. -/
theorem sumLen_lt {d d' : Domains} {x : Var}
    (hne : ∀ v, v ≠ x → d' v = d v) (hlt : (d' x).length < (d x).length) :
    ∀ L : List Var, L.Nodup → x ∈ L →
      (L.map (fun v => (d' v).length)).sum < (L.map (fun v => (d v).length)).sum := by
  intro L
  induction L with
  | nil => intro _ hx; simp at hx
  | cons v L ih =>
    intro hnd hx
    have hnd' := List.nodup_cons.mp hnd
    simp only [List.map_cons, List.sum_cons]
    rcases List.mem_cons.mp hx with hvx | hxL
    · subst hvx
      have htail : L.map (fun u => (d' u).length) = L.map (fun u => (d u).length) := by
        apply List.map_congr_left
        intro u hu
        rw [hne u (fun huv => hnd'.1 (huv ▸ hu))]
      rw [htail]
      exact Nat.add_lt_add_right hlt _
    · have hvne : v ≠ x := fun hvx => hnd'.1 (hvx ▸ hxL)
      rw [hne v hvne]
      exact Nat.add_lt_add_left (ih hnd'.2 hxL) _

/-- `sizeOn` version of `sumLen_lt`. -/
theorem sizeOn_lt {L : List Var} {d d' : Domains} {x : Var} (hx : x ∈ L)
    (hne : ∀ v, v ≠ x → d' v = d v) (hlt : (d' x).length < (d x).length) :
    sizeOn L d' < sizeOn L d :=
  sumLen_lt hne hlt L.dedup (List.nodup_dedup L) (List.mem_dedup.mpr hx)

/-- A revision re-enqueues at most `|variables|` arcs. -/
theorem burst_length_le (cw : Crossword) (x y : Var) :
    ((((neighbors cw x).filter (fun z => decide (z ≠ y))).map (fun z => (x, z))).length)
      ≤ cw.vars.length := by
  rw [List.length_map]
  calc ((neighbors cw x).filter (fun z => decide (z ≠ y))).length
      ≤ (neighbors cw x).length := List.length_filter_le _ _
    _ ≤ cw.vars.length := List.length_filter_le _ _

/-- Fuel sufficiency for the `ac3` worklist loop: with the potential
`|queue| + |store| * (|variables| + 1) + 1` as fuel the loop never runs out
(each iteration pops one arc, and a revision pays for its at most
`|variables|` re-enqueued arcs by shrinking the store). -/
theorem ac3Aux_isSome (cw : Crossword) (L : List Var) :
    ∀ (fuel : Nat) (q : List (Var × Var)) (d : Domains),
      (∀ p ∈ q, p.1 ∈ L) →
      q.length + sizeOn L d * (cw.vars.length + 1) + 1 ≤ fuel →
      (ac3Aux cw fuel q d).isSome = true := by
  intro fuel
  induction fuel with
  | zero =>
    intro q d _ hle
    exact absurd hle (Nat.not_succ_le_zero _)
  | succ fuel ih =>
    intro q d hq hle
    match q with
    | [] => simp [ac3Aux]
    | (x, y) :: rest =>
      have hxL : x ∈ L := hq (x, y) (List.mem_cons_self _ _)
      simp only [ac3Aux]
      rcases hrev : revise cw x y d with ⟨rev, d'⟩
      match rev with
      | false =>
        have hd : d' = d := revise_false_eq hrev
        subst hd
        dsimp only
        apply ih rest d' (fun p hp => hq p (List.mem_cons_of_mem _ hp))
        have : rest.length + 1 = ((x, y) :: rest).length := rfl
        omega
      | true =>
        dsimp only
        by_cases hx0 : d' x = []
        · rw [if_pos hx0]
          rfl
        · rw [if_neg hx0]
          obtain ⟨hlt, hother⟩ := revise_true_spec hrev
          have hS : sizeOn L d' < sizeOn L d := sizeOn_lt hxL hother hlt
          apply ih
          · intro p hp
            rcases List.mem_append.mp hp with h1 | h2
            · exact hq p (List.mem_cons_of_mem _ h1)
            · rcases List.mem_map.mp h2 with ⟨z, _, hpz⟩
              rw [← hpz]
              exact hxL
          · rw [List.length_append]
            have hb := burst_length_le cw x y
            have hmul : (sizeOn L d' + 1) * (cw.vars.length + 1)
                ≤ sizeOn L d * (cw.vars.length + 1) :=
              Nat.mul_le_mul_right _ hS
            rw [Nat.succ_mul] at hmul
            have hq1 : ((x, y) :: rest).length = rest.length + 1 := rfl
            rw [hq1] at hle
            omega

/-- `ac3` is the value the fueled loop converges to. -/
theorem ac3_eq_aux (cw : Crossword) (arcs : Option (List (Var × Var))) (d : Domains) :
    ac3Aux cw (ac3FuelBound cw (initQueue cw arcs) d) (initQueue cw arcs) d
      = some (ac3 cw arcs d) := by
  have hinv : ∀ p ∈ initQueue cw arcs, p.1 ∈ cw.vars ++ (initQueue cw arcs).map Prod.fst :=
    fun p hp => List.mem_append_right _ (List.mem_map_of_mem _ hp)
  have h := ac3Aux_isSome cw (cw.vars ++ (initQueue cw arcs).map Prod.fst)
    (ac3FuelBound cw (initQueue cw arcs) d) (initQueue cw arcs) d hinv
    (by unfold ac3FuelBound; exact Nat.le_refl _)
  rcases Option.isSome_iff_exists.mp h with ⟨r, hr⟩
  rw [hr]
  simp [ac3, hr]

/-- When the loop reports failure, some variable actually appearing as the
first component of a popped arc ended with an empty domain. -/
theorem ac3Aux_false_empty (cw : Crossword) :
    ∀ (fuel : Nat) (q : List (Var × Var)) (d d' : Domains),
      ac3Aux cw fuel q d = some (false, d') → ∃ x ∈ q.map Prod.fst, d' x = [] := by
  intro fuel
  induction fuel with
  | zero => intro q d d' h; simp [ac3Aux] at h
  | succ fuel ih =>
    intro q d d' h
    match q with
    | [] => simp [ac3Aux] at h
    | (x, y) :: rest =>
      simp only [ac3Aux] at h
      rcases hrev : revise cw x y d with ⟨rev, dd⟩
      rw [hrev] at h
      match rev with
      | false =>
        dsimp only at h
        obtain ⟨u, hu, hu0⟩ := ih rest dd d' h
        exact ⟨u, by simpa using Or.inr (by simpa using hu), hu0⟩
      | true =>
        dsimp only at h
        by_cases hx0 : dd x = []
        · rw [if_pos hx0] at h
          injection h with h1
          injection h1 with h2 h3
          subst h3
          exact ⟨x, by simp, hx0⟩
        · rw [if_neg hx0] at h
          obtain ⟨u, hu, hu0⟩ := ih _ dd d' h
          rw [List.map_append, List.mem_append] at hu
          rcases hu with hu | hu
          · exact ⟨u, by simpa using Or.inr (by simpa using hu), hu0⟩
          · rcases List.mem_map.mp hu with ⟨p, hp, hpu⟩
            rcases List.mem_map.mp hp with ⟨z, _, hzp⟩
            refine ⟨x, by simp, ?_⟩
            rw [← hpu, ← hzp] at hu0
            exact hu0

/-- `neighborhood`'s accumulator loop builds the mapped pair list. -/
theorem neighborhood_foldl_eq (var : Var) :
    ∀ (l : List Var) (acc : List (Var × Var)),
      l.foldl (fun queue neighbor => queue ++ [(var, neighbor)]) acc
        = acc ++ l.map (fun n => (var, n)) := by
  intro l
  induction l with
  | nil => intro acc; simp
  | cons n l ih =>
    intro acc
    rw [List.foldl_cons, ih, List.map_cons]
    simp

/-- Every pair of `neighborhood cw var` has `var` first. -/
theorem neighborhood_fst {cw : Crossword} {var : Var} {p : Var × Var}
    (h : p ∈ neighborhood cw var) : p.1 = var := by
  unfold neighborhood at h
  rw [neighborhood_foldl_eq] at h
  simp only [List.nil_append] at h
  rcases List.mem_map.mp h with ⟨n, _, hn⟩
  rw [← hn]

/-- Membership in the default-worklist fold. -/
theorem mem_foldl_neighborhood (cw : Crossword) :
    ∀ (l : List Var) (acc : List (Var × Var)) (p : Var × Var),
      p ∈ l.foldl (fun queue var => queue ++ neighborhood cw var) acc ↔
        p ∈ acc ∨ ∃ v ∈ l, p ∈ neighborhood cw v := by
  intro l
  induction l with
  | nil => intro acc p; simp
  | cons v l ih =>
    intro acc p
    rw [List.foldl_cons, ih]
    simp only [List.mem_append, List.mem_cons]
    constructor
    · rintro ((h | h) | ⟨u, hu, hp⟩)
      · exact Or.inl h
      · exact Or.inr ⟨v, Or.inl rfl, h⟩
      · exact Or.inr ⟨u, Or.inr hu, hp⟩
    · rintro (h | ⟨u, (rfl | hu), hp⟩)
      · exact Or.inl (Or.inl h)
      · exact Or.inl (Or.inr hp)
      · exact Or.inr ⟨u, hu, hp⟩

/-- First components of the default worklist are genuine variables. -/
theorem initQueue_none_fst {cw : Crossword} {p : Var × Var}
    (h : p ∈ initQueue cw none) : p.1 ∈ cw.vars := by
  unfold initQueue at h
  rcases (mem_foldl_neighborhood cw cw.vars [] p).mp h with h0 | ⟨v, hv, hnb⟩
  · simp at h0
  · rw [neighborhood_fst hnb]
    exact hv

/-- If the default `ac3` pass reports failure, some variable's domain in the
resulting store is empty. -/
theorem ac3_none_false_empty (cw : Crossword) (d : Domains)
    (h : (ac3 cw none d).1 = false) :
    ∃ x ∈ cw.vars, (ac3 cw none d).2 x = [] := by
  have heq := ac3_eq_aux cw none d
  rcases hr : ac3 cw none d with ⟨b, d2⟩
  rw [hr] at heq h
  dsimp only at h
  subst h
  obtain ⟨x, hx, hx0⟩ := ac3Aux_false_empty cw _ _ _ _ heq
  rcases List.mem_map.mp hx with ⟨p, hp, hpx⟩
  exact ⟨x, hpx ▸ initQueue_none_fst hp, hx0⟩

/-- The `better`-triple fold selects an element of the candidate list (or
keeps an already-selected one). -/
theorem selectFoldl_some (cw : Crossword) (d : Domains) (a : Assignment) (M : List Var) :
    ∀ (l : List Var) (best : Option Var × Nat × Int),
      (∀ v ∈ l, v ∈ M) →
      (best.1 = none ∨ ∃ b, best.1 = some b ∧ b ∈ M) →
      (l = [] ∧ (l.foldl (selectFold cw d a) best).1 = best.1) ∨
        ∃ b, (l.foldl (selectFold cw d a) best).1 = some b ∧ b ∈ M := by
  intro l
  induction l with
  | nil => intro best _ _; exact Or.inl ⟨rfl, rfl⟩
  | cons v l ih =>
    intro best hl hbest
    right
    have hv : v ∈ M := hl v (List.mem_cons_self _ _)
    have hstep : (selectFold cw d a best v).1 = some v ∨
        ∃ b, (selectFold cw d a best v).1 = some b ∧ b ∈ M := by
      simp only [selectFold]
      split
      · exact Or.inl rfl
      · split
        · exact Or.inl rfl
        · rcases hbest with hnone | hsome
          · rename_i hcond _
            exact absurd (Or.inl (by rw [hnone]; rfl)) hcond
          · exact Or.inr hsome
    have hbest' : (selectFold cw d a best v).1 = none ∨
        ∃ b, (selectFold cw d a best v).1 = some b ∧ b ∈ M := by
      rcases hstep with h | h
      · exact Or.inr ⟨v, h, hv⟩
      · exact Or.inr h
    have hres := ih (selectFold cw d a best v)
      (fun u hu => hl u (List.mem_cons_of_mem _ hu)) hbest'
    rw [List.foldl_cons]
    rcases hres with ⟨_, heq⟩ | hres
    · rw [heq]
      rcases hstep with h | h
      · exact ⟨v, h, hv⟩
      · exact h
    · exact hres

/-- If some candidate has an empty domain, the fold ends on a variable with
an empty domain (the running minimum can never rise above zero again). -/
theorem selectFoldl_zero (cw : Crossword) (d : Domains) (a : Assignment) :
    ∀ (l : List Var) (best : Option Var × Nat × Int),
      (best.1 = none ∨ ∃ b, best.1 = some b ∧ best.2.1 = (d b).length) →
      ((∃ v ∈ l, (d v).length = 0) ∨ ∃ b, best.1 = some b ∧ best.2.1 = 0) →
      ∃ b, (l.foldl (selectFold cw d a) best).1 = some b ∧ (d b).length = 0 := by
  intro l
  induction l with
  | nil =>
    intro best hinv h0
    rcases h0 with ⟨v, hv, _⟩ | ⟨b, hb, h20⟩
    · simp at hv
    · rcases hinv with hnone | ⟨c, hc, hlen⟩
      · rw [hnone] at hb; cases hb
      · refine ⟨c, hc, ?_⟩
        rw [hc] at hb
        injection hb with hbc
        rw [← hlen]
        exact h20
  | cons v l ih =>
    intro best hinv h0
    rw [List.foldl_cons]
    have hinv' : (selectFold cw d a best v).1 = none ∨
        ∃ b, (selectFold cw d a best v).1 = some b ∧
          (selectFold cw d a best v).2.1 = (d b).length := by
      simp only [selectFold]
      split
      · exact Or.inr ⟨v, rfl, rfl⟩
      · split
        · exact Or.inr ⟨v, rfl, rfl⟩
        · exact hinv
    apply ih (selectFold cw d a best v) hinv'
    rcases h0 with ⟨u, hu, hu0⟩ | ⟨b, hb, h20⟩
    · rcases List.mem_cons.mp hu with rfl | hul
      · right
        simp only [selectFold]
        split
        · exact ⟨u, rfl, hu0⟩
        · split
          · exact ⟨u, rfl, hu0⟩
          · rename_i hcond _
            rcases hinv with hnone | ⟨b, hb, hlen⟩
            · exact absurd (Or.inl (by rw [hnone]; rfl)) hcond
            · refine ⟨b, hb, ?_⟩
              have hnlt : ¬ (d u).length < best.2.1 := fun hlt => hcond (Or.inr hlt)
              omega
      · exact Or.inl ⟨u, hul, hu0⟩
    · right
      simp only [selectFold]
      split
      · rename_i hcond
        rcases hcond with hn | hlt
        · rw [hb] at hn
          simp at hn
        · omega
      · split
        · rename_i hcond2
          refine ⟨v, rfl, ?_⟩
          have he := hcond2.1
          dsimp only
          omega
        · exact ⟨b, hb, h20⟩

/-- If some unassigned variable's domain is empty, `select_unassigned_variable`
returns a variable whose domain is empty (MRV: zero is the least size). -/
theorem select_empty_domain {cw : Crossword} {d : Domains} {a : Assignment}
    (h : ∃ v ∈ cw.vars.filter (fun v => (alookup a v).isNone), d v = []) :
    ∃ b, selectUnassignedVariable cw d a = some b ∧ d b = [] := by
  obtain ⟨v, hv, hv0⟩ := h
  unfold selectUnassignedVariable
  have hz := selectFoldl_zero cw d a (cw.vars.filter (fun v => (alookup a v).isNone))
    (none, 500, -1) (Or.inl rfl) (Or.inl ⟨v, hv, by rw [hv0]; rfl⟩)
  obtain ⟨b, hb, hb0⟩ := hz
  exact ⟨b, hb, List.length_eq_zero.mp hb0⟩

/-- With unassigned variables left, `select_unassigned_variable` returns one
of them. -/
theorem select_mem {cw : Crossword} {d : Domains} {a : Assignment}
    (h : cw.vars.filter (fun v => (alookup a v).isNone) ≠ []) :
    ∃ b, selectUnassignedVariable cw d a = some b ∧
      b ∈ cw.vars.filter (fun v => (alookup a v).isNone) := by
  unfold selectUnassignedVariable
  have hres := selectFoldl_some cw d a (cw.vars.filter (fun v => (alookup a v).isNone))
    (cw.vars.filter (fun v => (alookup a v).isNone)) (none, 500, -1)
    (fun v hv => hv) (Or.inl rfl)
  rcases hres with ⟨hnil, _⟩ | hres
  · exact absurd hnil h
  · exact hres

/-- The LCV ordering permutes the domain, so it is empty iff the domain is. -/
theorem orderDomainValues_eq_nil {cw : Crossword} {d : Domains} {var : Var}
    {a : Assignment} : orderDomainValues cw d var a = [] ↔ d var = [] := by
  unfold orderDomainValues
  rw [← List.length_eq_zero, List.length_map, List.length_insertionSort,
    List.length_map, List.length_eq_zero]

/-- The empty assignment is complete exactly for a variable-free puzzle. -/
theorem assignmentComplete_nil {cw : Crossword} :
    assignmentComplete cw [] = true ↔ cw.vars = [] := by
  unfold assignmentComplete
  rw [List.all_eq_true]
  constructor
  · intro h
    cases hv : cw.vars with
    | nil => rfl
    | cons v l =>
      have := h v (by rw [hv]; exact List.mem_cons_self _ _)
      simp [alookup] at this
  · intro h
    rw [h]
    intro v hv
    simp at hv

/-- `backtrack` returns an assignment only when its input was complete, and
then it returns the input itself. -/
theorem backtrack_ok_some {cw : Crossword} {d : Domains} {a r : Assignment}
    (h : backtrack cw d a = .ok (some r)) :
    assignmentComplete cw a = true ∧ r = a := by
  unfold backtrack at h
  split at h
  · injection h with h1
    injection h1 with h2
    exact ⟨by assumption, h2.symm⟩
  · split at h
    · cases h
    · split at h
      · injection h with h1
        cases h1
      · cases h

/-- On a non-empty variable list the empty assignment is incomplete. -/
theorem assignmentComplete_nil_false {cw : Crossword} (h : cw.vars ≠ []) :
    assignmentComplete cw [] = false := by
  rcases hb : assignmentComplete cw [] with _ | _
  · rfl
  · exact absurd (assignmentComplete_nil.mp hb) h

/-- Under the empty assignment every variable counts as unassigned. -/
theorem filter_unassigned_nil (cw : Crossword) :
    cw.vars.filter (fun v => (alookup [] v).isNone) = cw.vars :=
  List.filter_eq_self.mpr (fun _ _ => rfl)

/-- Erasing exactly the elements a filter collected is filtering with the
negated predicate. -/
theorem eraseAll_filter (l : List Word) (p : Word → Bool) :
    eraseAll l (l.filter p) = l.filter (fun w => !p w) := by
  unfold eraseAll
  apply List.filter_congr
  intro w hw
  by_cases hp : p w = true
  · simp [List.mem_filter, hw, hp]
  · simp [List.mem_filter, hp]

/-- The node-consistency pass keeps exactly the words of the right length. -/
theorem enforceNodeConsistency_eq_filter (cw : Crossword) (d : Domains) (key : Var) :
    enforceNodeConsistency cw d key =
      if key ∈ cw.vars then (d key).filter (fun w => decide (w.length = key.length))
      else d key := by
  unfold enforceNodeConsistency
  by_cases hk : key ∈ cw.vars
  · rw [if_pos hk, if_pos hk, eraseAll_filter]
    apply List.filter_congr
    intro w _
    simp [decide_not]
  · rw [if_neg hk, if_neg hk]

/-- An incomplete assignment whose selected variable has a non-empty ordered
candidate list makes `backtrack` hit the unbound name `assigment`. -/
theorem backtrack_nameError_helper (cw : Crossword) (d : Domains) (a : Assignment)
    (var : Var) (h1 : assignmentComplete cw a = false)
    (h2 : selectUnassignedVariable cw d a = some var)
    (h3 : orderDomainValues cw d var a ≠ []) :
    backtrack cw d a = .error .nameError := by
  unfold backtrack
  rcases ho : orderDomainValues cw d var a with _ | ⟨w, rest⟩
  · exact absurd ho h3
  · rw [if_neg (by simp [h1]), h2]
    dsimp only
    rw [ho]

/-- A puzzle with variables, all of whose post-filter domains are non-empty,
drives `solve` into the `NameError`. -/
theorem solve_nameError_helper (cw : Crossword) (hne : cw.vars ≠ [])
    (hdom : ∀ v ∈ cw.vars, postFilterDomains cw v ≠ []) :
    solve cw = .error .nameError := by
  show backtrack cw (postFilterDomains cw) [] = .error .nameError
  obtain ⟨b, hbsel, hbmem⟩ := @select_mem cw (postFilterDomains cw) []
    (by rw [filter_unassigned_nil]; exact hne)
  rw [filter_unassigned_nil] at hbmem
  apply backtrack_nameError_helper cw _ [] b (assignmentComplete_nil_false hne) hbsel
  intro hnil
  exact hdom b hbmem (orderDomainValues_eq_nil.mp hnil)

/-- When the initial `ac3` pass fails, `backtrack` on the resulting store and
the empty assignment immediately returns `None`: MRV selects a variable whose
domain emptied, so its candidate list is empty. -/
theorem backtrack_none_helper (cw : Crossword) (d : Domains) (x : Var)
    (hx : x ∈ cw.vars) (hx0 : d x = []) :
    backtrack cw d [] = .ok none := by
  have hne : cw.vars ≠ [] := fun hnil => by rw [hnil] at hx; simp at hx
  obtain ⟨b, hbsel, hb0⟩ := @select_empty_domain cw d []
    ⟨x, by rw [filter_unassigned_nil]; exact hx, hx0⟩
  unfold backtrack
  rw [if_neg (by simp [assignmentComplete_nil_false hne]), hbsel]
  dsimp only
  rw [orderDomainValues_eq_nil.mpr hb0]

/-! ### Claim theorems -/

/-- C1.  Every assignment `solve` returns (i.e. whenever `backtrack` yields a
non-`None` mapping) assigns a word to every variable of the crossword, uses
pairwise distinct words on distinct variables, and agrees on the overlap
offsets of every pair of neighboring assigned variables.  (In this code the
only reachable success is the empty assignment on a variable-free puzzle,
which satisfies all three conditions.) -/
theorem solve_only_returns_valid_assignments (cw : Crossword) (a : Assignment)
    (h : solve cw = .ok (some a)) :
    (∀ v ∈ cw.vars, (alookup a v).isSome = true) ∧
    (∀ x wx y wy, (x, wx) ∈ a → (y, wy) ∈ a → x ≠ y → wx ≠ wy) ∧
    (∀ x wx y wy i j, (x, wx) ∈ a → (y, wy) ∈ a → y ∈ neighbors cw x →
      cw.overlaps x y = some (i, j) → charAt wx i = charAt wy j) := by
  have hb : backtrack cw (postFilterDomains cw) [] = .ok (some a) := h
  obtain ⟨hc, hr⟩ := backtrack_ok_some hb
  subst hr
  have hv : cw.vars = [] := assignmentComplete_nil.mp hc
  refine ⟨?_, ?_, ?_⟩
  · intro v hvv
    rw [hv] at hvv
    simp at hvv
  · intro x wx y wy hx
    simp at hx
  · intro x wx y wy i j hx
    simp at hx

/-- Witness for C1: the variable-free crossword makes `solve` return the empty
assignment, and the validity conditions hold for it. -/
theorem solve_only_returns_valid_assignments_witness :
    solve cwEmpty = .ok (some []) ∧
    ((∀ v ∈ cwEmpty.vars, (alookup [] v).isSome = true) ∧
     (∀ x wx y wy, (x, wx) ∈ ([] : Assignment) → (y, wy) ∈ ([] : Assignment) →
        x ≠ y → wx ≠ wy) ∧
     (∀ x wx y wy i j, (x, wx) ∈ ([] : Assignment) → (y, wy) ∈ ([] : Assignment) →
        y ∈ neighbors cwEmpty x → cwEmpty.overlaps x y = some (i, j) →
        charAt wx i = charAt wy j)) :=
  ⟨rfl, solve_only_returns_valid_assignments cwEmpty [] rfl⟩

/-- C2.  The spec's intended algorithm extends the assignment with
`variable -> word` and hands the extended assignment to the consistency check
and the recursive call; the code instead raises `NameError` at
`new_assignment = assigment.copy()` (line 272) on the first candidate, before
any consistency check — and lines 275/279 pass the *unmodified* `assignment`
anyway.  Evaluating the code on a one-slot puzzle with a fitting word shows
the raise. -/
theorem solve_single_slot_raises_nameError : solve cwSingle = .error .nameError := rfl

/-- C3 counterexample.  On `cwCross` the initial full `ac3` pass reports
failure, yet `solve` does not return early: its straight-line body still
reaches the `backtrack` call (the Boolean of line 93 is discarded). -/
theorem ac3_failure_still_reaches_backtrack :
    (ac3 cwCross none (enforceNodeConsistency cwCross (initialDomains cwCross))).1 = false ∧
    solveReachesBacktrack cwCross = true :=
  ⟨by decide, rfl⟩

/-- C3 amended.  `solve` runs the node-consistency filter once and one full
`ac3` pass, but ignores the pass's Boolean and always invokes
`backtrack({})`; when that initial `ac3` pass fails, `backtrack` immediately
returns `None`, so `solve` still produces the Unsatisfiable outcome — via
`backtrack`, not by an early return. -/
theorem solve_returns_none_when_initial_ac3_fails (cw : Crossword)
    (h : (ac3 cw none (enforceNodeConsistency cw (initialDomains cw))).1 = false) :
    solve cw = .ok none := by
  obtain ⟨x, hx, hx0⟩ := ac3_none_false_empty cw _ h
  exact backtrack_none_helper cw (postFilterDomains cw) x hx hx0

/-- Witness for C3: on `cwCross` the initial `ac3` pass fails and `solve`
returns `None`. -/
theorem solve_returns_none_when_initial_ac3_fails_witness :
    (ac3 cwCross none (enforceNodeConsistency cwCross (initialDomains cwCross))).1 = false ∧
    solve cwCross = .ok none :=
  ⟨by decide, solve_returns_none_when_initial_ac3_fails cwCross (by decide)⟩

/-- C4 counterexample.  `consistent` accepts an assignment giving the same
word to two distinct variables when they are not neighbors: the duplicate
check of line 199 only runs inside the loop over neighbors. -/
theorem consistent_accepts_nonneighbor_duplicate :
    (⟨0, 0, false, 3⟩ : Var) ≠ ⟨5, 5, true, 2⟩ ∧
    consistent cwSplit
      [(⟨0, 0, false, 3⟩, ['a', 'a']), (⟨5, 5, true, 2⟩, ['a', 'a'])] = true := by
  decide

/-- C4 amended.  `consistent` returns `false` whenever two distinct
*neighboring* variables are assigned the same word; duplicates between
non-neighbors are not rejected. -/
theorem consistent_rejects_duplicate_neighbors (cw : Crossword) (a : Assignment)
    (x y : Var) (w : Word) (hx : (x, w) ∈ a) (hy : alookup a y = some w)
    (hn : y ∈ neighbors cw x) : consistent cw a = false := by
  unfold consistent
  rw [List.all_eq_false]
  refine ⟨(x, w), hx, ?_⟩
  rw [Bool.not_eq_true, List.all_eq_false]
  refine ⟨y, hn, ?_⟩
  simp [hy]

/-- Witness for C4: on `cwChain`, assigning `ab` to the crossing slots `X`
and `Y` is rejected. -/
theorem consistent_rejects_duplicate_neighbors_witness :
    ((vX, (['a', 'b'] : Word)) ∈ [(vX, (['a', 'b'] : Word)), (vY, ['a', 'b'])]) ∧
    alookup [(vX, (['a', 'b'] : Word)), (vY, ['a', 'b'])] vY = some ['a', 'b'] ∧
    vY ∈ neighbors cwChain vX ∧
    consistent cwChain [(vX, (['a', 'b'] : Word)), (vY, ['a', 'b'])] = false :=
  ⟨by decide, by decide, by decide,
    consistent_rejects_duplicate_neighbors cwChain _ vX vY ['a', 'b']
      (by decide) (by decide) (by decide)⟩

/-- C5.  The claim says every failed candidate branch restores the Domain
Store exactly; in the code no candidate branch ever runs: entering the
candidate loop raises `NameError` (line 272) before the `track` snapshot
(line 276), the lookahead `ac3`, or the restore (line 282) can execute —
shown here on `cwChain`, whose selected slot `Z` has the non-empty candidate
list.  (Moreover `track = self.domains[var]` aliases the very set object the
lookahead mutates in place, and neighbors' domains are never restored, so the
restore would be ineffective even if reached.) -/
theorem backtrack_raises_before_any_restore :
    backtrack cwChain dChain [] = .error .nameError := rfl

/-- C6.  `ac3` with the default worklist can report success on a store that is
*not* arc consistent: on `cwChain`/`dChain` it returns `true` while the word
`ab` kept in `domains[X]` has no distinct supporting word left in
`domains[Y]` at the `(0,0)` overlap — the loop re-enqueues arcs `(x, z)`
instead of `(z, x)` after revising `x`, so the broken arc `(X, Y)` is never
re-examined. -/
theorem ac3_success_without_support :
    (ac3 cwChain none dChain).1 = true ∧
    vY ∈ neighbors cwChain vX ∧
    cwChain.overlaps vX vY = some (0, 0) ∧
    (['a', 'b'] : Word) ∈ (ac3 cwChain none dChain).2 vX ∧
    ¬ ∃ w ∈ (ac3 cwChain none dChain).2 vY,
        w ≠ ['a', 'b'] ∧ charAt ['a', 'b'] 0 = charAt w 0 := by
  decide

/-- C7 counterexample.  The seed list built for the lookahead pass puts the
just-assigned variable *first* in each arc, not the neighbor: on `cwChain`,
`neighborhood(X)` is `[(X, Y)]`, not `[(Y, X)]` as the claim states. -/
theorem neighborhood_seed_not_neighbor_first :
    neighborhood cwChain vX = [(vX, vY)] ∧ neighborhood cwChain vX ≠ [(vY, vX)] := by
  decide

/-- C7 amended.  The seed list `neighborhood(variable)` used at the (dead)
lookahead call site consists of the arcs `(variable, neighbor)` — the
just-assigned variable first — one per neighbor of the just-assigned
variable. -/
theorem neighborhood_pairs_put_var_first (cw : Crossword) (var : Var) :
    neighborhood cw var = (neighbors cw var).map (fun n => (var, n)) := by
  unfold neighborhood
  rw [neighborhood_foldl_eq]
  simp

/-- C8.  The `ac3` worklist loop terminates on every input — variable set,
store, and arbitrary initial arc list: within the explicit fuel
`|queue| + |store| * (|variables| + 1) + 1` the loop always completes
(domains only shrink, and arcs are re-enqueued only when a domain strictly
shrinks). -/
theorem ac3_loop_terminates (cw : Crossword) (arcs : Option (List (Var × Var)))
    (d : Domains) :
    (ac3Aux cw (ac3FuelBound cw (initQueue cw arcs) d) (initQueue cw arcs) d).isSome
      = true := by
  apply ac3Aux_isSome cw (cw.vars ++ (initQueue cw arcs).map Prod.fst)
  · intro p hp
    exact List.mem_append_right _ (List.mem_map_of_mem _ hp)
  · unfold ac3FuelBound
    exact Nat.le_refl _

/-- C9 counterexample.  `ac3` is *not* idempotent: on `cwChain`/`dChain` the
default pass succeeds, yet running `ac3` again on the resulting store removes
a further word from `domains[X]`. -/
theorem ac3_rerun_changes_domain :
    (ac3 cwChain none dChain).1 = true ∧
    (ac3 cwChain none ((ac3 cwChain none dChain).2)).2 vX
      ≠ (ac3 cwChain none dChain).2 vX := by
  decide

/-- C9 amended.  `enforce_node_consistency` is idempotent — an immediate
second run changes no domain; the analogous statement for `ac3` fails (see
the counterexample). -/
theorem enforceNodeConsistency_idempotent (cw : Crossword) (d : Domains) :
    enforceNodeConsistency cw (enforceNodeConsistency cw d)
      = enforceNodeConsistency cw d := by
  funext key
  rw [enforceNodeConsistency_eq_filter, enforceNodeConsistency_eq_filter]
  by_cases hk : key ∈ cw.vars
  · simp only [if_pos hk, List.filter_filter]
    apply List.filter_congr
    intro w _
    simp
  · simp only [if_neg hk]

/-- C10 counterexample.  A puzzle can have a variable with a non-empty
post-filter domain and still make `solve` return `None` instead of raising:
in `cwSplit` the length-3 slot's domain empties during filtering, MRV selects
it, its candidate list is empty, and `backtrack` returns `None` — no
`NameError` even though the length-2 slot's post-filter domain is non-empty. -/
theorem solve_with_nonempty_domain_returns_none :
    (⟨5, 5, true, 2⟩ : Var) ∈ cwSplit.vars ∧
    postFilterDomains cwSplit ⟨5, 5, true, 2⟩ ≠ [] ∧
    solve cwSplit = .ok none :=
  ⟨by decide, by decide, rfl⟩

/-- C10 amended.  (a) Every `backtrack` call whose assignment is incomplete
and whose selected variable has a non-empty ordered candidate list raises
`NameError` at `new_assignment = assigment.copy()`; (b) consequently `solve`
ends in this exception on every puzzle that has at least one variable and in
which *every* variable's post-filter domain is non-empty. -/
theorem backtrack_always_raises_nameError :
    (∀ (cw : Crossword) (d : Domains) (a : Assignment) (var : Var),
        assignmentComplete cw a = false →
        selectUnassignedVariable cw d a = some var →
        orderDomainValues cw d var a ≠ [] →
        backtrack cw d a = .error .nameError) ∧
    (∀ cw : Crossword, cw.vars ≠ [] →
        (∀ v ∈ cw.vars, postFilterDomains cw v ≠ []) →
        solve cw = .error .nameError) :=
  ⟨backtrack_nameError_helper, solve_nameError_helper⟩

/-- Witness for C10: the one-slot puzzle `cwSingle` satisfies both sets of
hypotheses and indeed raises. -/
theorem backtrack_always_raises_nameError_witness :
    assignmentComplete cwSingle [] = false ∧
    selectUnassignedVariable cwSingle (postFilterDomains cwSingle) []
      = some ⟨0, 0, false, 2⟩ ∧
    orderDomainValues cwSingle (postFilterDomains cwSingle) ⟨0, 0, false, 2⟩ [] ≠ [] ∧
    backtrack cwSingle (postFilterDomains cwSingle) [] = .error .nameError ∧
    cwSingle.vars ≠ [] ∧
    solve cwSingle = .error .nameError :=
  ⟨by decide, by decide, by decide,
    backtrack_always_raises_nameError.1 cwSingle (postFilterDomains cwSingle) []
      ⟨0, 0, false, 2⟩ (by decide) (by decide) (by decide),
    by decide,
    backtrack_always_raises_nameError.2 cwSingle (by decide) (by decide)⟩

end CrosswordCSP
